import Mathlib

/-!
Verification of the flashcard search pipeline
(`search_essential_logic/{flow,core,rerank}.py` and `anki_script.py`).

Shallow embedding conventions:
- Python `str` is modelled as Lean `String` (scanning functions work on
  `List Char`, the `data` of a `String`).
- Python floats are modelled as exact rationals `ℚ`; `np.linalg.norm`
  needs a square root, which is not exactly representable, so every
  definition that normalizes vectors is parametric in a square-root
  function `sq : ℚ → ℚ`.  All theorems hold for every choice of `sq`,
  because the verified claims concern ordering, selection and error
  signalling, none of which depend on the numeric value of the norm.
- External calls (embedding service, Cohere rerank, DeepSeek chat, the
  spawned `anki_script.py` process) are modelled by injecting their
  outcome as a value: `Except String α` for a call that either returns
  or raises, and a pre-parsed standard-output value for the subprocess.
- Python exceptions are modelled with `Except` / `Option`; a caught
  exception is a `match` on the injected outcome.
-/

/-! ### `core.py`: `extract_nid` (lines 164-183)

Python: re.findall with the raw pattern bracket-nid-colon, 13 digits
in a capture group, close bracket.
`tryNidToken l` attempts to match the token `[nid:<13 digits>]` at the
head of `l`, returning the digit block.  `scanNids` scans every position
left to right.  Advancing one character after a hit is equivalent to
`re.findall` skipping the whole match, because no character of a match
except its first is `[`, so matches can never overlap.  Python `\d` is
modelled as ASCII `Char.isDigit`; the corpus identifiers are ASCII. -/

def tryNidToken (l : List Char) : Option String :=
  if l.take 5 = ['[', 'n', 'i', 'd', ':'] then
    if ((l.drop 5).take 13).length = 13 ∧ ((l.drop 5).take 13).all Char.isDigit then
      if ((l.drop 5).drop 13).take 1 = [']'] then some (String.mk ((l.drop 5).take 13))
      else none
    else none
  else none

def scanNids : List Char → List String
  | [] => []
  | c :: cs =>
    match tryNidToken (c :: cs) with
    | some d => d :: scanNids cs
    | none => scanNids cs

def extract_nid (text : String) : List String :=
  scanNids text.data

/-! ### `core.py`: `format_nids_for_anki` (lines 64-91)

The Python function reads `extracted_nid_list` out of the per-search
dictionary and writes back the `formatted_nids` string; the string
computation on the identifier list is modelled here (the dictionary
plumbing is reproduced inside `search_flashcards` below). -/

def format_nids_for_anki (nids : List String) : String :=
  if nids.isEmpty then "" else "nid:" ++ String.intercalate "," nids

/-! ### Card records

The Python pipeline threads dictionaries that accumulate keys stage by
stage.  Each stage copies the incoming dictionary and adds its own keys,
so later records are modelled as a structure wrapping the earlier one. -/

structure SimCard where
  cosine_similarity_rank : Nat
  nid : String
  cosine_similarity_score : ℚ
  content : String
deriving DecidableEq

structure RelCard where
  base : SimCard
  relevance_score : ℚ
  relevance_rank : Nat
deriving DecidableEq

structure LlmCard where
  base : RelCard
  llm_rank : Nat
deriving DecidableEq

/-- One entry of the `results` list of the Cohere rerank response:
an original index and a relevance score. -/
structure CohereResult where
  index : Nat
  relevance_score : ℚ
deriving DecidableEq

/-! ### `flow.py`: `get_top_n_similarities_and_indices` (lines 5-50)

The numpy pipeline: dimension check, L2 normalization of the query
(zero norm: left unnormalized) and of every matrix row (zero norms
replaced by 1.0), dot products, `argpartition` for the top `n`, then
`argsort` of the selected scores reversed.

`np.argsort` (introsort) gives no tie guarantee in general, but on the
small selected slices it runs insertion sort, which is stable; it is
modelled as the sort of the index list by the lexicographic order
(score ascending, then index ascending), which is exactly a stable
ascending sort by score.  `np.argpartition` only guarantees that the
last `n` slots hold the `n` largest entries; it is modelled as the last
`n` entries of that same stable ascending argsort.  Python slice
`a[-n:]` equals `a[0:]` when `n = 0`, hence the `n = 0` branch. -/

def dotL (v w : List ℚ) : ℚ :=
  (List.zipWith (fun a b => a * b) v w).sum

def normalize_query (sq : ℚ → ℚ) (q : List ℚ) : List ℚ :=
  let n := sq (dotL q q)
  if n ≠ 0 then q.map (fun x => x / n) else q

def row_norm (sq : ℚ → ℚ) (row : List ℚ) : ℚ :=
  let n := sq (dotL row row)
  if n = 0 then 1 else n

def similarity_scores (sq : ℚ → ℚ) (q : List ℚ) (m : List (List ℚ)) : List ℚ :=
  m.map (fun row => dotL (row.map (fun x => x / row_norm sq row)) (normalize_query sq q))

/-- Ascending comparison of two indices by score, ties by index: a
total, transitive order realizing one concrete ascending argsort of
`s` (the stable one numpy exhibits where it runs insertion sort).
`np.argsort` with the default kind guarantees no tie order in general,
so the universal theorem about the selection (claim C1) is proved for
every argsort satisfying `ArgsortSpec` below, not just for this
representative; the representative is kept because it is executable
and is what the small concrete instances evaluate. -/
def scoreLe (s : List ℚ) (i j : Nat) : Prop :=
  s.getD i 0 < s.getD j 0 ∨ (s.getD i 0 = s.getD j 0 ∧ i ≤ j)

instance scoreLeDec (s : List ℚ) : DecidableRel (scoreLe s) := fun i j =>
  if h : s.getD i 0 < s.getD j 0 then isTrue (Or.inl h)
  else if h2 : s.getD i 0 = s.getD j 0 then
    if h3 : i ≤ j then isTrue (Or.inr ⟨h2, h3⟩)
    else isFalse (fun hc => hc.elim h (fun hp => h3 hp.2))
  else isFalse (fun hc => hc.elim h (fun hp => h2 hp.1))

instance scoreLeTotal (s : List ℚ) : IsTotal Nat (scoreLe s) := by
  constructor
  intro i j
  rcases lt_trichotomy (s.getD i 0) (s.getD j 0) with h | h | h
  · exact Or.inl (Or.inl h)
  · rcases Nat.le_total i j with hij | hij
    · exact Or.inl (Or.inr ⟨h, hij⟩)
    · exact Or.inr (Or.inr ⟨h.symm, hij⟩)
  · exact Or.inr (Or.inl h)

instance scoreLeTrans (s : List ℚ) : IsTrans Nat (scoreLe s) := by
  constructor
  intro a b c hab hbc
  rcases hab with h1 | ⟨h1, h1i⟩ <;> rcases hbc with h2 | ⟨h2, h2i⟩
  · exact Or.inl (h1.trans h2)
  · exact Or.inl (h2 ▸ h1)
  · exact Or.inl (h1 ▸ h2)
  · exact Or.inr ⟨h1.trans h2, h1i.trans h2i⟩

def argsortAsc (s : List ℚ) : List Nat :=
  List.insertionSort (scoreLe s) (List.range s.length)

/-- One concrete realization of `np.argpartition(scores, -n)[-n:]`:
the last `n` slots of the representative ascending argsort.  numpy
documents only that the last `n` slots hold the `n` largest entries,
in unspecified order and with an unspecified choice among tied
boundary elements; the universal theorem for claim C1 therefore
quantifies over every function satisfying `ArgpartitionSpec` below,
and this executable representative (which provably satisfies the
contract) is used for concrete evaluation.  Python slice `a[-n:]`
equals `a[0:]` when `n = 0`, hence the `n = 0` branch. -/
def argpartitionTop (s : List ℚ) (n : Nat) : List Nat :=
  if n = 0 then argsortAsc s else (argsortAsc s).drop (s.length - n)

/-- Model of `top[np.argsort(scores[top])][::-1]` applied to the
representative partition. -/
def topNIndices (s : List ℚ) (n : Nat) : List Nat :=
  (List.insertionSort (scoreLe s) (argpartitionTop s n)).reverse

/-- Documented contract of ascending `np.argsort`: the result is a
permutation of the index range along which the values are
non-decreasing.  No tie order is promised (the default kind,
introsort, is not stable). -/
def ArgsortSpec (asort : List ℚ → List Nat) : Prop :=
  ∀ s : List ℚ, (asort s).Perm (List.range s.length) ∧
    List.Pairwise (fun i j => s.getD i 0 ≤ s.getD j 0) (asort s)

/-- Documented contract of `np.argpartition(s, -n)[-n:]` for
`1 ≤ n ≤ len s`: `n` distinct in-range indices whose values dominate
the value at every index left out.  Neither the order of the selected
indices nor the choice among tied boundary elements is promised. -/
def ArgpartitionSpec (apart : List ℚ → Nat → List Nat) : Prop :=
  ∀ (s : List ℚ) (n : Nat), 1 ≤ n → n ≤ s.length →
    (apart s n).length = n ∧ (apart s n).Nodup ∧
    (∀ i ∈ apart s n, i < s.length) ∧
    (∀ j, j < s.length → j ∉ apart s n → ∀ i ∈ apart s n, s.getD j 0 ≤ s.getD i 0)

/-- Lines 47-49 of `flow.py` with the two numpy calls left abstract:
`top = np.argpartition(scores, -n)[-n:]` followed by
`top[np.argsort(scores[top])[::-1]]`; `scores[top]` is the fancy
indexing `top.map (scores.getD · 0)`, the argsort of it yields
positions into `top`, and the position list is reversed (reversing the
positions before indexing equals reversing the indexed result). -/
def topNIndices_with (apart : List ℚ → Nat → List Nat) (asort : List ℚ → List Nat)
    (s : List ℚ) (n : Nat) : List Nat :=
  ((asort ((apart s n).map (fun i => s.getD i 0))).map
    (fun k => (apart s n).getD k 0)).reverse

/-- Message of the `ValueError` raised on a dimension mismatch (the
interpolated shape numbers of the Python message are elided). -/
def dim_mismatch_message : String := "Embedding dimension mismatch"

/-- Message of the `ValueError` raised by `np.argpartition` when
`top_n_sim` exceeds the number of rows. -/
def kth_out_of_bounds_message : String := "kth out of bounds"

def get_top_n_similarities_and_indices (sq : ℚ → ℚ) (query_embed : List ℚ)
    (embeddings : List (List ℚ)) (top_n_sim : Nat) : Except String (List (Nat × ℚ)) :=
  if query_embed.length ≠ (embeddings.headD []).length then
    Except.error dim_mismatch_message
  else if embeddings.length < top_n_sim then
    Except.error kth_out_of_bounds_message
  else
    let s := similarity_scores sq query_embed embeddings
    Except.ok ((topNIndices s top_n_sim).map (fun i => (i, s.getD i 0)))

/-- `get_top_n_similarities_and_indices` with the numpy selection and
sort abstracted; instantiating `apart` and `asort` with the concrete
representatives recovers the executable model up to the choice the
numpy documentation leaves open. -/
def get_top_n_with (apart : List ℚ → Nat → List Nat) (asort : List ℚ → List Nat)
    (sq : ℚ → ℚ) (query_embed : List ℚ) (embeddings : List (List ℚ))
    (top_n_sim : Nat) : Except String (List (Nat × ℚ)) :=
  if query_embed.length ≠ (embeddings.headD []).length then
    Except.error dim_mismatch_message
  else if embeddings.length < top_n_sim then
    Except.error kth_out_of_bounds_message
  else
    let s := similarity_scores sq query_embed embeddings
    Except.ok ((topNIndices_with apart asort s top_n_sim).map (fun i => (i, s.getD i 0)))

/-! ### `flow.py`: `prepare_top_cards_list` (lines 53-73)

`dataframe.iloc[i]` raises on an out-of-range index, which aborts the
search through the `try` in `search_flashcards`; the lookup is modelled
with `Option`.  The dataframe is modelled as the list of
(`nid`, `flashcard_content`) rows. -/

def prepare_top_cards_go (df : List (String × String)) :
    Nat → List (Nat × ℚ) → Option (List SimCard)
  | _, [] => some []
  | rank, (i, sim) :: rest =>
    match df.get? i with
    | none => none
    | some row =>
      match prepare_top_cards_go df (rank + 1) rest with
      | none => none
      | some cards => some ({ cosine_similarity_rank := rank, nid := row.1,
                              cosine_similarity_score := sim, content := row.2 } :: cards)

def prepare_top_cards_list (top_pairs : List (Nat × ℚ)) (df : List (String × String)) :
    Option (List SimCard) :=
  prepare_top_cards_go df 1 top_pairs

/-! ### `rerank.py`: `reconstruct_from_cohere` (lines 26-58) and
`rerank_workflow` (lines 60-105)

`cohere_pre_rank_index` maps `0..len-1` to the similarity cards, i.e.
it is the card list itself with `List.get?` lookup.  A missing index
raises `KeyError`, which the `except KeyError: continue` turns into a
skip; note that `enumerate(..., start=1)` advances the rank counter for
skipped entries as well.  The final defensive Python `sort` (stable,
by `relevance_rank`) is modelled by `insertionSort`. -/

def rankLe (a b : RelCard) : Prop := a.relevance_rank ≤ b.relevance_rank

instance rankLeDec : DecidableRel rankLe := fun a b => by
  unfold rankLe; infer_instance

instance rankLeTotal : IsTotal RelCard rankLe :=
  ⟨fun a b => Nat.le_total a.relevance_rank b.relevance_rank⟩

instance rankLeTrans : IsTrans RelCard rankLe :=
  ⟨fun _ _ _ hab hbc => Nat.le_trans hab hbc⟩

def reconstruct_go (pre : List SimCard) : Nat → List CohereResult → List RelCard
  | _, [] => []
  | rank, r :: rs =>
    match pre.get? r.index with
    | some c => { base := c, relevance_score := r.relevance_score,
                  relevance_rank := rank } :: reconstruct_go pre (rank + 1) rs
    | none => reconstruct_go pre (rank + 1) rs

def reconstruct_from_cohere (cohere_results : List CohereResult)
    (pre : List SimCard) : List RelCard :=
  List.insertionSort rankLe (reconstruct_go pre 1 cohere_results)

/-- The Cohere call is abstracted by its injected outcome
(`Except.error` models a raised exception, re-raised by the workflow);
`query` and `num_wanted` are kept for signature fidelity but only feed
the abstracted call. -/
def rerank_workflow (cohere_outcome : Except String (List CohereResult))
    (query : String) (similarity_top_cards_full_fat : List SimCard)
    (num_wanted_back_from_cohere : Option Nat) : Except String (List RelCard) :=
  if similarity_top_cards_full_fat.isEmpty then
    Except.ok []
  else
    match cohere_outcome with
    | Except.error e => Except.error e
    | Except.ok results => Except.ok (reconstruct_from_cohere results similarity_top_cards_full_fat)

/-! ### `core.py`: `create_llm_ranked_cards` (lines 187-219)

`nid_to_card = {card["nid"]: card for card in reranked_cards}` is a
last-write-wins dictionary; looking a key up is finding the last card
with that `nid`.  As in `reconstruct_from_cohere`, the rank comes from
`enumerate(extracted_nids, 1)` and advances over skipped entries. -/

def lookup_card (reranked_cards : List RelCard) (x : String) : Option RelCard :=
  reranked_cards.reverse.find? (fun c => c.base.nid = x)

def create_llm_go (reranked_cards : List RelCard) : Nat → List String → List LlmCard
  | _, [] => []
  | rank, x :: xs =>
    match lookup_card reranked_cards x with
    | some c => { base := c, llm_rank := rank } :: create_llm_go reranked_cards (rank + 1) xs
    | none => create_llm_go reranked_cards (rank + 1) xs

def create_llm_ranked_cards (reranked_cards : List RelCard)
    (extracted_nids : List String) : List LlmCard :=
  create_llm_go reranked_cards 1 extracted_nids

/-! ### `flow.py`: `format_flashcard_results_for_llm` (lines 75-94) -/

def flashcard_pool_lines : List RelCard → String
  | [] => ""
  | c :: cs => ("- [nid:" ++ c.base.nid ++ "] " ++ c.base.content ++ "\n")
      ++ flashcard_pool_lines cs

def format_flashcard_results_for_llm (header_that_is_prompt query_text : String)
    (reranked_cards : List RelCard) : String :=
  "# Prompt\n" ++ header_that_is_prompt ++ "\n\n"
    ++ ("## Query\n" ++ query_text ++ "\n\n")
    ++ ("## Flashcard Pool\n" ++ flashcard_pool_lines reranked_cards)

/-! ### `flow.py`: `chat_with_final_llm` (lines 96-110)

The DeepSeek call is abstracted by its injected outcome.  The Python
function catches every exception and returns the string
`f"Error: {e}"`; it never re-raises. -/

def chat_with_final_llm (deepseek_outcome : Except String String) : String :=
  match deepseek_outcome with
  | Except.ok s => s
  | Except.error e => "Error: " ++ e

/-! ### `core.py`: `check_anki_status` (lines 93-156)

The spawned `anki_script.py` process is abstracted by the parse outcome
of its standard output: `json.loads` on malformed or empty stdout
raises `JSONDecodeError` (`malformed`); valid JSON that is not an
object, or an object without the `anki_status` key, is `structureless`;
otherwise the object is a key/value map (`anki_script.py` only ever
emits string values).  Every branch of the Python function returns a
string; nothing escapes the outer `try`. -/

inductive ParsedStdout where
  | malformed : ParsedStdout
  | structureless : ParsedStdout
  | dict : List (String × String) → ParsedStdout
deriving DecidableEq

def lookup_key (kvs : List (String × String)) (k : String) : Option String :=
  (kvs.find? (fun p => p.1 = k)).map (fun p => p.2)

def check_anki_status (stdout_parsed : ParsedStdout) : String :=
  match stdout_parsed with
  | ParsedStdout.malformed => "Error: Invalid response format from script"
  | ParsedStdout.structureless => "Error: Invalid response structure from script"
  | ParsedStdout.dict kvs =>
    match lookup_key kvs "anki_status" with
    | none => "Error: Invalid response structure from script"
    | some v => v

/-! ### `core.py`: `search_flashcards` (lines 263-338)

The runtime configuration carries the embedding matrix, the dataframe
and the two size knobs; `personal_LLM_prompt` is the header after the
`str.format` substitution of `in_prompt_number` (string templating is
not modelled; no claim depends on it).  The provider outcomes inject
the results of the external calls.  The whole body runs under one
`try/except` that converts any raised exception into `None`. -/

structure RuntimeConfig where
  embeddings : List (List ℚ)
  top_n_vectors_from_dataframe : Nat
  dataframe : List (String × String)
  num_wanted_back_from_cohere : Option Nat
  personal_LLM_prompt : String
deriving DecidableEq

structure ProviderOutcomes where
  embed_result : Except String (List ℚ)
  cohere_result : Except String (List CohereResult)
  deepseek_result : Except String String
  anki_stdout : ParsedStdout

structure SearchResult where
  query : String
  similarity_top_cards_full_fat : List SimCard
  reranked_cards : List RelCard
  llm_prompt : String
  llm_response : String
  extracted_nid_list : List String
  formatted_nids : String
  anki_status : String
  llm_ranked_cards : List LlmCard
deriving DecidableEq

def search_flashcards (sq : ℚ → ℚ) (cfg : RuntimeConfig) (pv : ProviderOutcomes)
    (query_text : String) : Option SearchResult :=
  match pv.embed_result with
  | Except.error _ => none
  | Except.ok query_embed =>
    match get_top_n_similarities_and_indices sq query_embed cfg.embeddings
        cfg.top_n_vectors_from_dataframe with
    | Except.error _ => none
    | Except.ok top_pairs =>
      match prepare_top_cards_list top_pairs cfg.dataframe with
      | none => none
      | some similarity_top_cards_full_fat =>
        match rerank_workflow pv.cohere_result query_text similarity_top_cards_full_fat
            cfg.num_wanted_back_from_cohere with
        | Except.error _ => none
        | Except.ok reranked_cards =>
          let llm_prompt := format_flashcard_results_for_llm cfg.personal_LLM_prompt
            query_text reranked_cards
          let back_from_chatgpt := chat_with_final_llm pv.deepseek_result
          let extracted_nids := extract_nid back_from_chatgpt
          some { query := query_text,
                 similarity_top_cards_full_fat := similarity_top_cards_full_fat,
                 reranked_cards := reranked_cards,
                 llm_prompt := llm_prompt,
                 llm_response := back_from_chatgpt,
                 extracted_nid_list := extracted_nids,
                 formatted_nids := format_nids_for_anki extracted_nids,
                 anki_status := check_anki_status pv.anki_stdout,
                 llm_ranked_cards := create_llm_ranked_cards reranked_cards extracted_nids }

/-- Overwrite the `anki_status` field; used to state that the bridge
outcome influences nothing else in the aggregate result. -/
def erase_anki_status (r : SearchResult) : SearchResult :=
  { r with anki_status := "" }

/-! ## Helper lemmas -/

theorem sdata_append (a b : String) : (a ++ b).data = a.data ++ b.data := rfl

theorem smk_data (s : String) : String.mk s.data = s := by cases s; rfl

theorem tryNidToken_eq_none_of_head {c : Char} (cs : List Char) (h : c ≠ '[') :
    tryNidToken (c :: cs) = none := by
  unfold tryNidToken
  rw [if_neg]
  intro hc
  rw [List.take_succ_cons] at hc
  exact h (List.cons.injEq .. ▸ hc).1

theorem scanNids_cons_of_ne {c : Char} (cs : List Char) (h : c ≠ '[') :
    scanNids (c :: cs) = scanNids cs := by
  conv_lhs => rw [scanNids]
  rw [tryNidToken_eq_none_of_head cs h]

theorem scanNids_skip (pre l : List Char) (h : ∀ c ∈ pre, c ≠ '[') :
    scanNids (pre ++ l) = scanNids l := by
  induction pre with
  | nil => rfl
  | cons c cs ih =>
    rw [List.cons_append, scanNids_cons_of_ne _ (h c (List.mem_cons_self c cs)), ih]
    intro x hx
    exact h x (List.mem_cons_of_mem c hx)

theorem scanNids_template (t : String) (l : List Char)
    (h : t.data.all (fun c => c ≠ '[') = true) :
    scanNids (t.data ++ l) = scanNids l := by
  refine scanNids_skip t.data l (fun c hc => ?_)
  have := List.all_eq_true.mp h c hc
  simpa using this

theorem tryNidToken_token (d r : List Char) (h13 : d.length = 13)
    (hd : d.all Char.isDigit) :
    tryNidToken ('[' :: 'n' :: 'i' :: 'd' :: ':' :: (d ++ ']' :: r)) = some (String.mk d) := by
  unfold tryNidToken
  rw [show ('[' :: 'n' :: 'i' :: 'd' :: ':' :: (d ++ ']' :: r)).drop 5 = d ++ ']' :: r from rfl]
  rw [show ('[' :: 'n' :: 'i' :: 'd' :: ':' :: (d ++ ']' :: r)).take 5
        = ['[', 'n', 'i', 'd', ':'] from rfl]
  rw [if_pos rfl]
  rw [List.take_left' h13, List.drop_left' h13]
  rw [if_pos ⟨h13, hd⟩]
  rw [if_pos (show List.take 1 (']' :: r) = [']'] from rfl)]

/-- No character of a successful token is a newline, so appending
material after a newline never changes what the head of the list
matches.  This is the key fact behind splitting a scan at a newline. -/
theorem tryNidToken_append_newline (l b : List Char) :
    tryNidToken (l ++ '\n' :: b) = tryNidToken l := by
  unfold tryNidToken
  by_cases h5 : 5 ≤ l.length
  · have ht5 : (l ++ '\n' :: b).take 5 = l.take 5 := by
      rw [List.take_append_eq_append_take, Nat.sub_eq_zero_of_le h5, List.take_zero,
        List.append_nil]
    rw [ht5]
    by_cases hpat : l.take 5 = ['[', 'n', 'i', 'd', ':']
    · rw [if_pos hpat, if_pos hpat]
      have hd5 : (l ++ '\n' :: b).drop 5 = l.drop 5 ++ '\n' :: b := by
        rw [List.drop_append_eq_append_drop, Nat.sub_eq_zero_of_le h5, List.drop_zero]
      rw [hd5]
      by_cases h13 : 13 ≤ (l.drop 5).length
      · have ht13 : (l.drop 5 ++ '\n' :: b).take 13 = (l.drop 5).take 13 := by
          rw [List.take_append_eq_append_take, Nat.sub_eq_zero_of_le h13, List.take_zero,
            List.append_nil]
        rw [ht13]
        by_cases hcond : ((l.drop 5).take 13).length = 13 ∧ ((l.drop 5).take 13).all Char.isDigit
        · rw [if_pos hcond, if_pos hcond]
          have hd13 : (l.drop 5 ++ '\n' :: b).drop 13 = (l.drop 5).drop 13 ++ '\n' :: b := by
            rw [List.drop_append_eq_append_drop, Nat.sub_eq_zero_of_le h13, List.drop_zero]
          rw [hd13]
          by_cases h14 : 14 ≤ (l.drop 5).length
          · have h1 : 1 ≤ ((l.drop 5).drop 13).length := by
              rw [List.length_drop]; omega
            rw [List.take_append_eq_append_take, Nat.sub_eq_zero_of_le h1, List.take_zero,
              List.append_nil]
          · have hnil : (l.drop 5).drop 13 = [] := by
              apply List.drop_eq_nil_of_le; omega
            rw [hnil, List.nil_append]
            have hln : ('\n' :: b).take 1 = ['\n'] := rfl
            rw [if_neg (show ¬ (('\n' :: b).take 1 = [']']) by rw [hln]; decide),
              if_neg (show ¬ (([] : List Char).take 1 = [']']) by decide)]
        · rw [if_neg hcond, if_neg hcond]
      · have hRfalse : ¬ (((l.drop 5).take 13).length = 13 ∧
            ((l.drop 5).take 13).all Char.isDigit) := by
          intro hc
          have := hc.1
          rw [List.length_take] at this
          omega
        have hLfalse : ¬ (((l.drop 5 ++ '\n' :: b).take 13).length = 13 ∧
            ((l.drop 5 ++ '\n' :: b).take 13).all Char.isDigit) := by
          intro hc
          have hmem : '\n' ∈ (l.drop 5 ++ '\n' :: b).take 13 := by
            rw [List.take_append_eq_append_take]
            refine List.mem_append_right _ ?_
            have hs : 13 - (l.drop 5).length = (12 - (l.drop 5).length) + 1 := by
              rw [List.length_drop] at h13 ⊢; omega
            rw [hs, List.take_succ_cons]
            exact List.mem_cons_self _ _
          have := List.all_eq_true.mp hc.2 '\n' hmem
          exact absurd this (by decide)
        rw [if_neg hLfalse, if_neg hRfalse]
    · rw [if_neg hpat, if_neg hpat]
  · have hR : ¬ (l.take 5 = ['[', 'n', 'i', 'd', ':']) := by
      intro hc
      have := congrArg List.length hc
      rw [List.length_take] at this
      simp at this
      omega
    have hL : ¬ ((l ++ '\n' :: b).take 5 = ['[', 'n', 'i', 'd', ':']) := by
      intro hc
      have hmem : '\n' ∈ (l ++ '\n' :: b).take 5 := by
        rw [List.take_append_eq_append_take]
        refine List.mem_append_right _ ?_
        have hs : 5 - l.length = (4 - l.length) + 1 := by omega
        rw [hs, List.take_succ_cons]
        exact List.mem_cons_self _ _
      rw [hc] at hmem
      exact absurd hmem (by decide)
    rw [if_neg hL, if_neg hR]

theorem digit_ne_lbrack {ch : Char} (h : ch.isDigit = true) : ch ≠ '[' := by
  intro he
  rw [he] at h
  exact absurd h (by decide)

/-- Material appended after an opening bracket never changes what a
non-empty head matches: a token starting inside the head cannot reach
across the seam, because the seam character is an opening bracket,
which is neither one of the four pattern characters that follow an
opening bracket, nor a digit, nor a closing bracket. -/
theorem tryNidToken_append_lbrack (c : Char) (cs r : List Char) :
    tryNidToken ((c :: cs) ++ '[' :: r) = tryNidToken (c :: cs) := by
  unfold tryNidToken
  by_cases h5 : 5 ≤ (c :: cs).length
  · have ht5 : ((c :: cs) ++ '[' :: r).take 5 = (c :: cs).take 5 := by
      rw [List.take_append_eq_append_take, Nat.sub_eq_zero_of_le h5, List.take_zero,
        List.append_nil]
    rw [ht5]
    by_cases hpat : (c :: cs).take 5 = ['[', 'n', 'i', 'd', ':']
    · rw [if_pos hpat, if_pos hpat]
      have hd5 : ((c :: cs) ++ '[' :: r).drop 5 = (c :: cs).drop 5 ++ '[' :: r := by
        rw [List.drop_append_eq_append_drop, Nat.sub_eq_zero_of_le h5, List.drop_zero]
      rw [hd5]
      by_cases h13 : 13 ≤ ((c :: cs).drop 5).length
      · have ht13 : ((c :: cs).drop 5 ++ '[' :: r).take 13 = ((c :: cs).drop 5).take 13 := by
          rw [List.take_append_eq_append_take, Nat.sub_eq_zero_of_le h13, List.take_zero,
            List.append_nil]
        rw [ht13]
        by_cases hcond : (((c :: cs).drop 5).take 13).length = 13 ∧
            (((c :: cs).drop 5).take 13).all Char.isDigit
        · rw [if_pos hcond, if_pos hcond]
          have hd13 : ((c :: cs).drop 5 ++ '[' :: r).drop 13
              = ((c :: cs).drop 5).drop 13 ++ '[' :: r := by
            rw [List.drop_append_eq_append_drop, Nat.sub_eq_zero_of_le h13, List.drop_zero]
          rw [hd13]
          by_cases h14 : 14 ≤ ((c :: cs).drop 5).length
          · have h1 : 1 ≤ (((c :: cs).drop 5).drop 13).length := by
              rw [List.length_drop]; omega
            rw [List.take_append_eq_append_take, Nat.sub_eq_zero_of_le h1, List.take_zero,
              List.append_nil]
          · have hnil : ((c :: cs).drop 5).drop 13 = [] := by
              apply List.drop_eq_nil_of_le; omega
            rw [hnil, List.nil_append]
            have hlb : ('[' :: r).take 1 = ['['] := rfl
            rw [if_neg (show ¬ (('[' :: r).take 1 = [']']) by rw [hlb]; decide),
              if_neg (show ¬ (([] : List Char).take 1 = [']']) by decide)]
        · rw [if_neg hcond, if_neg hcond]
      · have hRfalse : ¬ ((((c :: cs).drop 5).take 13).length = 13 ∧
            (((c :: cs).drop 5).take 13).all Char.isDigit) := by
          intro hc2
          have := hc2.1
          rw [List.length_take] at this
          omega
        have hLfalse : ¬ ((((c :: cs).drop 5 ++ '[' :: r).take 13).length = 13 ∧
            (((c :: cs).drop 5 ++ '[' :: r).take 13).all Char.isDigit) := by
          intro hc2
          have hmem : '[' ∈ ((c :: cs).drop 5 ++ '[' :: r).take 13 := by
            rw [List.take_append_eq_append_take]
            refine List.mem_append_right _ ?_
            have hs : 13 - ((c :: cs).drop 5).length
                = (12 - ((c :: cs).drop 5).length) + 1 := by
              rw [List.length_drop] at h13 ⊢; omega
            rw [hs, List.take_succ_cons]
            exact List.mem_cons_self _ _
          have := List.all_eq_true.mp hc2.2 '[' hmem
          exact absurd this (by decide)
        rw [if_neg hLfalse, if_neg hRfalse]
    · rw [if_neg hpat, if_neg hpat]
  · have hR : ¬ ((c :: cs).take 5 = ['[', 'n', 'i', 'd', ':']) := by
      intro hc2
      have := congrArg List.length hc2
      rw [List.length_take] at this
      rw [Nat.min_eq_right (by omega : (c :: cs).length ≤ 5)] at this
      simp at this h5
      omega
    have hL : ¬ (((c :: cs) ++ '[' :: r).take 5 = ['[', 'n', 'i', 'd', ':']) := by
      intro hc2
      have h1 : ((c :: cs) ++ '[' :: r).take 5
          = (c :: cs) ++ ('[' :: r).take (5 - (c :: cs).length) := by
        rw [List.take_append_eq_append_take,
          List.take_of_length_le (Nat.le_of_lt (Nat.lt_of_not_le h5))]
      have hidx : 5 - (c :: cs).length = (4 - (c :: cs).length) + 1 := by omega
      have hgot : (((c :: cs) ++ '[' :: r).take 5).getD (c :: cs).length ' ' = '[' := by
        rw [h1, hidx, List.take_succ_cons,
          List.getD_append_right _ _ _ _ (Nat.le_refl (c :: cs).length), Nat.sub_self]
        rfl
      rw [hc2] at hgot
      have hone : (c :: cs).length = cs.length + 1 := rfl
      have hcases : (c :: cs).length = 1 ∨ (c :: cs).length = 2 ∨
          (c :: cs).length = 3 ∨ (c :: cs).length = 4 := by omega
      rcases hcases with h | h | h | h <;> rw [h] at hgot <;> exact absurd hgot (by decide)
    rw [if_neg hL, if_neg hR]

theorem scanNids_append_newline (a b : List Char) :
    scanNids (a ++ '\n' :: b) = scanNids a ++ scanNids b := by
  induction a with
  | nil =>
    rw [List.nil_append, scanNids_cons_of_ne b (by decide)]
    rfl
  | cons c cs ih =>
    rw [List.cons_append]
    conv_lhs => rw [scanNids]
    conv_rhs => rw [scanNids]
    rw [show c :: (cs ++ '\n' :: b) = (c :: cs) ++ '\n' :: b from rfl,
      tryNidToken_append_newline (c :: cs) b]
    cases h : tryNidToken (c :: cs) with
    | none => simpa using ih
    | some d => simp [ih]

theorem tryNidToken_some_inv {l : List Char} {d : String} (h : tryNidToken l = some d) :
    d.data.length = 13 ∧ d.data.all Char.isDigit = true ∧
    ∃ r, l = '[' :: 'n' :: 'i' :: 'd' :: ':' :: (d.data ++ ']' :: r) := by
  unfold tryNidToken at h
  by_cases h5 : l.take 5 = ['[', 'n', 'i', 'd', ':']
  case neg => rw [if_neg h5] at h; exact absurd h (by simp)
  rw [if_pos h5] at h
  by_cases hc : ((l.drop 5).take 13).length = 13 ∧ ((l.drop 5).take 13).all Char.isDigit
  case neg => rw [if_neg hc] at h; exact absurd h (by simp)
  rw [if_pos hc] at h
  by_cases h1 : ((l.drop 5).drop 13).take 1 = [']']
  case neg => rw [if_neg h1] at h; exact absurd h (by simp)
  rw [if_pos h1] at h
  have hd : d.data = (l.drop 5).take 13 := by
    have := Option.some.inj h
    rw [← this]
  refine ⟨hd ▸ hc.1, hd ▸ hc.2, ((l.drop 5).drop 13).drop 1, ?_⟩
  conv_lhs => rw [← List.take_append_drop 5 l, ← List.take_append_drop 13 (l.drop 5),
    ← List.take_append_drop 1 ((l.drop 5).drop 13)]
  rw [h5, h1, ← hd]
  simp

theorem scanNids_sound (l : List Char) (s : String) (hs : s ∈ scanNids l) :
    s.data.length = 13 ∧ s.data.all Char.isDigit = true ∧
    List.IsInfix ('[' :: 'n' :: 'i' :: 'd' :: ':' :: (s.data ++ [']'])) l := by
  induction l with
  | nil => simp [scanNids] at hs
  | cons c cs ih =>
    rw [scanNids] at hs
    cases h : tryNidToken (c :: cs) with
    | none =>
      rw [h] at hs
      obtain ⟨h1, h2, h3⟩ := ih hs
      exact ⟨h1, h2, List.infix_cons h3⟩
    | some d =>
      rw [h] at hs
      rcases List.mem_cons.mp hs with rfl | hs2
      · obtain ⟨h1, h2, r, hr⟩ := tryNidToken_some_inv h
        refine ⟨h1, h2, ?_⟩
        rw [hr]
        refine List.IsPrefix.isInfix ⟨r, ?_⟩
        simp
      · obtain ⟨h1, h2, h3⟩ := ih hs2
        exact ⟨h1, h2, List.infix_cons h3⟩

theorem digit_all_ne_lbrack {d : List Char} (hd : d.all Char.isDigit) :
    ∀ ch ∈ d, ch ≠ '[' :=
  fun ch hch => digit_ne_lbrack (List.all_eq_true.mp hd ch hch)

/-- Decomposition law: scanning any text split as an arbitrary part, a
well-formed token and an arbitrary continuation yields the scan of the
first part, then the token digits, then the scan of the continuation.
No match can cross either seam (the token starts with an opening
bracket, which can continue no partial match, and the token body
contains no further opening bracket), so this single law determines
the output order and multiplicity of the extractor on every text. -/
theorem scanNids_token_split (a b d : List Char) (h13 : d.length = 13)
    (hd : d.all Char.isDigit) :
    scanNids (a ++ '[' :: 'n' :: 'i' :: 'd' :: ':' :: (d ++ ']' :: b))
      = scanNids a ++ String.mk d :: scanNids b := by
  induction a with
  | nil =>
    rw [List.nil_append]
    conv_lhs => rw [scanNids]
    rw [tryNidToken_token d b h13 hd]
    have htail : scanNids ('n' :: 'i' :: 'd' :: ':' :: (d ++ ']' :: b)) = scanNids b := by
      rw [show ('n' :: 'i' :: 'd' :: ':' :: (d ++ ']' :: b))
          = ['n', 'i', 'd', ':'] ++ (d ++ ']' :: b) from rfl]
      rw [scanNids_skip ['n', 'i', 'd', ':'] _ (by decide)]
      rw [scanNids_skip d _ (digit_all_ne_lbrack hd)]
      exact scanNids_cons_of_ne b (by decide)
    rw [htail]
    rfl
  | cons c cs ih =>
    rw [List.cons_append]
    conv_lhs => rw [scanNids]
    rw [show c :: (cs ++ '[' :: 'n' :: 'i' :: 'd' :: ':' :: (d ++ ']' :: b))
        = (c :: cs) ++ '[' :: ('n' :: 'i' :: 'd' :: ':' :: (d ++ ']' :: b)) from rfl]
    rw [tryNidToken_append_lbrack c cs ('n' :: 'i' :: 'd' :: ':' :: (d ++ ']' :: b))]
    conv_rhs => rw [scanNids]
    cases h : tryNidToken (c :: cs) with
    | none => simpa using ih
    | some e => simp only [ih, List.cons_append]

/-! ## Claim C5 -/

/-- Claim C5, counterexample.  The claim says the extractor matches
bracketed tokens of the form id-colon-digits; the code matches the
pattern nid-colon-digits instead: on a 13-digit token written with the
id prefix the extractor finds nothing, and it does extract from the
nid-prefixed token the claim says nothing about. -/
theorem C5_counterexample :
    extract_nid "[id:1234567890123]" = [] ∧
    extract_nid "[nid:1234567890123]" = ["1234567890123"] := by
  constructor <;> decide

/-- Claim C5, amended: for every input text the extractor returns
exactly the 13-digit numbers appearing in bracketed tokens of the form
nid-colon-digits (not id-colon-digits), in order of first appearance
with duplicates included; a bracketed 12- or 14-digit number produces
no match, and a text with no match yields the empty list rather than
an error.  Order and multiplicity are given in general by the
decomposition law: scanning any text split as a part, a well-formed
token, and a continuation yields the scan of the part, then that token
digits, then the scan of the continuation, so peeling tokens left to
right determines the whole output; soundness bounds the output to
13-digit numbers whose token occurs in the text. -/
theorem C5_extract_nid_tokens :
    (∀ (text : String) (s : String), s ∈ extract_nid text →
       s.data.length = 13 ∧ s.data.all Char.isDigit = true ∧
       List.IsInfix ('[' :: 'n' :: 'i' :: 'd' :: ':' :: (s.data ++ [']'])) text.data) ∧
    (∀ (a b d : List Char), d.length = 13 → d.all Char.isDigit →
       scanNids (a ++ '[' :: 'n' :: 'i' :: 'd' :: ':' :: (d ++ ']' :: b))
         = scanNids a ++ String.mk d :: scanNids b) ∧
    extract_nid "[nid:1234567890123] foo [nid:9999999999999]"
      = ["1234567890123", "9999999999999"] ∧
    extract_nid "[nid:1111111111111] twice [nid:1111111111111]"
      = ["1111111111111", "1111111111111"] ∧
    extract_nid "some [nid:123456789012] text" = [] ∧
    extract_nid "some [nid:12345678901234] text" = [] := by
  refine ⟨fun text s hs => scanNids_sound text.data s hs,
    fun a b d h13 hd => scanNids_token_split a b d h13 hd, ?_, ?_, ?_, ?_⟩ <;> decide

/-- Claim C5, witness for the amended theorem: the soundness conjunct
applied to a concrete text and extracted value, and the decomposition
conjunct applied to a concrete split around a concrete token. -/
theorem C5_witness :
    ("1234567890123" : String).data.length = 13 ∧
    ("1234567890123" : String).data.all Char.isDigit = true ∧
    List.IsInfix ('[' :: 'n' :: 'i' :: 'd' :: ':' :: (("1234567890123" : String).data ++ [']']))
      ("x [nid:1234567890123] y" : String).data ∧
    scanNids (['a'] ++ '[' :: 'n' :: 'i' :: 'd' :: ':' ::
        (['9','9','9','9','9','9','9','9','9','9','9','9','9'] ++ ']' :: ['z']))
      = scanNids ['a'] ++ String.mk ['9','9','9','9','9','9','9','9','9','9','9','9','9']
          :: scanNids ['z'] := by
  obtain ⟨h1, h2, h3⟩ := C5_extract_nid_tokens.1 "x [nid:1234567890123] y" "1234567890123"
    (by decide)
  exact ⟨h1, h2, h3, C5_extract_nid_tokens.2.1 ['a'] ['z']
    ['9','9','9','9','9','9','9','9','9','9','9','9','9'] (by decide) (by decide)⟩

/-! ## Claim C6 -/

/-- Claim C6, counterexample.  The claim says the serialized identifier
query string starts with the id prefix; the code joins with the nid
prefix. -/
theorem C6_counterexample :
    format_nids_for_anki ["111", "222"] = "nid:111,222" ∧
    format_nids_for_anki ["111", "222"] ≠ "id:111,222" := by
  constructor <;> decide

/-- Claim C6, amended: for every extracted-identifier list, the
serialized identifier query string equals nid-colon followed by the
identifiers joined with commas when the list is non-empty (for example
a two-element list gives "nid:111,222"), and equals the empty string
(not "nid:") when the list is empty. -/
theorem C6_format_nids (nids : List String) :
    format_nids_for_anki [] = "" ∧
    (nids ≠ [] → format_nids_for_anki nids = "nid:" ++ String.intercalate "," nids) := by
  refine ⟨rfl, fun h => ?_⟩
  unfold format_nids_for_anki
  rw [if_neg]
  simpa using h

/-- Claim C6, witness: the amended theorem applied to the concrete
list of the spec example. -/
theorem C6_witness :
    format_nids_for_anki [] = "" ∧
    format_nids_for_anki ["111", "222"] = "nid:" ++ String.intercalate "," ["111", "222"] :=
  ⟨(C6_format_nids ["111", "222"]).1, (C6_format_nids ["111", "222"]).2 (by decide)⟩

/-! ## Claim C9 -/

/-- Claim C9: for every query string and every rerank-provider
behaviour, the rerank workflow applied to an empty card list returns
the empty list, and the result is independent of the provider outcome
(the provider is never consulted): two runs with arbitrary different
provider outcomes, queries and size limits coincide. -/
theorem C9_rerank_empty (o1 o2 : Except String (List CohereResult)) (q1 q2 : String)
    (n1 n2 : Option Nat) :
    rerank_workflow o1 q1 [] n1 = Except.ok [] ∧
    rerank_workflow o1 q1 [] n1 = rerank_workflow o2 q2 [] n2 :=
  ⟨rfl, rfl⟩

/-! ## Claim C2 -/

theorem lookup_card_nid {m : List RelCard} {x : String} {c : RelCard}
    (h : lookup_card m x = some c) : c.base.nid = x := by
  unfold lookup_card at h
  have := List.find?_some h
  simpa using this

theorem create_llm_go_eq (m : List RelCard) (nids : List String) (r : Nat) :
    create_llm_go m r nids
      = (List.enumFrom r nids).filterMap
          (fun p => (lookup_card m p.2).map (fun c => { base := c, llm_rank := p.1 })) := by
  induction nids generalizing r with
  | nil => rfl
  | cons x xs ih =>
    rw [List.enumFrom_cons, List.filterMap_cons]
    cases h : lookup_card m x with
    | none => simp only [create_llm_go, h, Option.map_none']; exact ih (r + 1)
    | some c => simp only [create_llm_go, h, Option.map_some']; rw [ih (r + 1)]

theorem create_llm_go_nids (m : List RelCard) (nids : List String) (r : Nat) :
    (create_llm_go m r nids).map (fun c => c.base.base.nid)
      = nids.filter (fun x => (lookup_card m x).isSome) := by
  induction nids generalizing r with
  | nil => rfl
  | cons x xs ih =>
    rw [List.filter_cons]
    cases h : lookup_card m x with
    | none => simp only [create_llm_go, h, Option.isSome_none, Bool.false_eq_true,
        if_false]; exact ih (r + 1)
    | some c =>
      simp only [create_llm_go, h, Option.isSome_some, if_true, List.map_cons]
      rw [ih (r + 1), lookup_card_nid h]

theorem create_llm_go_ranks (m : List RelCard) (nids : List String) (r : Nat)
    (h : ∀ x ∈ nids, (lookup_card m x).isSome = true) :
    (create_llm_go m r nids).map (fun c => c.llm_rank) = List.range' r nids.length := by
  induction nids generalizing r with
  | nil => rfl
  | cons x xs ih =>
    obtain ⟨c, hc⟩ := Option.isSome_iff_exists.mp (h x (List.mem_cons_self x xs))
    simp only [create_llm_go, hc, List.map_cons, List.length_cons, List.range'_succ]
    rw [ih (r + 1) (fun y hy => h y (List.mem_cons_of_mem x hy))]

/-- Claim C2, counterexample.  The claim says `llm_rank` values are
exactly one up to the output length with no gaps; the rank counter of
the code advances over unresolvable identifiers too, so a skipped
identifier leaves a gap: with one resolvable card and an unresolvable
identifier first in the extracted list, the single output card gets
rank 2, not 1. -/
theorem C2_counterexample :
    (create_llm_ranked_cards [⟨⟨1, "1111111111111", 1, "A"⟩, 1, 1⟩]
        ["0000000000000", "1111111111111"]).map (fun c => c.llm_rank) = [2] ∧
    (create_llm_ranked_cards [⟨⟨1, "1111111111111", 1, "A"⟩, 1, 1⟩]
        ["0000000000000", "1111111111111"]).map (fun c => c.llm_rank)
      ≠ List.range' 1 (create_llm_ranked_cards [⟨⟨1, "1111111111111", 1, "A"⟩, 1, 1⟩]
          ["0000000000000", "1111111111111"]).length := by
  constructor <;> decide

/-- Claim C2, amended: the reconciler iterates the extracted
identifiers in order and assigns to each identifier that resolves to a
card an `llm_rank` equal to the identifier's 1-based position in the
extracted list (so a skipped identifier ahead of a resolvable one
leaves a gap, as the counterexample shows, while skipped identifiers
after the last resolvable one do not); identifiers with no matching
card are skipped silently; output order follows the
extracted-identifier order; the ranks are exactly one up to the output
length whenever every extracted identifier resolves. -/
theorem C2_llm_rank (m : List RelCard) (nids : List String) :
    create_llm_ranked_cards m nids
      = (List.enumFrom 1 nids).filterMap
          (fun p => (lookup_card m p.2).map (fun c => { base := c, llm_rank := p.1 })) ∧
    (create_llm_ranked_cards m nids).map (fun c => c.base.base.nid)
      = nids.filter (fun x => (lookup_card m x).isSome) ∧
    ((∀ x ∈ nids, (lookup_card m x).isSome = true) →
      (create_llm_ranked_cards m nids).map (fun c => c.llm_rank)
        = List.range' 1 nids.length) :=
  ⟨create_llm_go_eq m nids 1, create_llm_go_nids m nids 1,
    fun h => create_llm_go_ranks m nids 1 h⟩

/-- Claim C2, witness: the spec example, relevance-ranked cards with
identifiers 456 then 123 and extracted identifiers 123 then 456, gives
ranks one and two following the extracted order. -/
theorem C2_witness :
    (create_llm_ranked_cards [⟨⟨1, "456", 1, "B"⟩, 9, 1⟩, ⟨⟨2, "123", 1, "A"⟩, 8, 2⟩]
        ["123", "456"]).map (fun c => c.llm_rank) = List.range' 1 (["123", "456"] : List String).length ∧
    (create_llm_ranked_cards [⟨⟨1, "456", 1, "B"⟩, 9, 1⟩, ⟨⟨2, "123", 1, "A"⟩, 8, 2⟩]
        ["123", "456"]).map (fun c => c.base.base.nid)
      = (["123", "456"] : List String).filter
          (fun x => (lookup_card [⟨⟨1, "456", 1, "B"⟩, 9, 1⟩, ⟨⟨2, "123", 1, "A"⟩, 8, 2⟩] x).isSome) :=
  ⟨(C2_llm_rank [⟨⟨1, "456", 1, "B"⟩, 9, 1⟩, ⟨⟨2, "123", 1, "A"⟩, 8, 2⟩] ["123", "456"]).2.2
      (by decide),
    (C2_llm_rank [⟨⟨1, "456", 1, "B"⟩, 9, 1⟩, ⟨⟨2, "123", 1, "A"⟩, 8, 2⟩] ["123", "456"]).2.1⟩

/-! ## Claim C3 -/

theorem reconstruct_go_rank_ge (pre : List SimCard) (resp : List CohereResult) (r : Nat) :
    ∀ c ∈ reconstruct_go pre r resp, r ≤ c.relevance_rank := by
  induction resp generalizing r with
  | nil => intro c hc; simp [reconstruct_go] at hc
  | cons cr rs ih =>
    intro c hc
    rw [reconstruct_go] at hc
    cases h : pre.get? cr.index with
    | none =>
      rw [h] at hc
      exact Nat.le_of_succ_le (ih (r + 1) c hc)
    | some card =>
      rw [h] at hc
      rcases List.mem_cons.mp hc with rfl | hc2
      · exact Nat.le_refl _
      · exact Nat.le_of_succ_le (ih (r + 1) c hc2)

theorem reconstruct_go_pairwise (pre : List SimCard) (resp : List CohereResult) (r : Nat) :
    List.Pairwise (fun a b => a.relevance_rank < b.relevance_rank)
      (reconstruct_go pre r resp) := by
  induction resp generalizing r with
  | nil => exact List.Pairwise.nil
  | cons cr rs ih =>
    rw [reconstruct_go]
    cases h : pre.get? cr.index with
    | none => exact ih (r + 1)
    | some card =>
      refine List.Pairwise.cons ?_ (ih (r + 1))
      intro b hb
      exact Nat.lt_of_succ_le (reconstruct_go_rank_ge pre rs (r + 1) b hb)

theorem reconstruct_go_eq (pre : List SimCard) (resp : List CohereResult) (r : Nat) :
    reconstruct_go pre r resp
      = (List.enumFrom r resp).filterMap
          (fun p => (pre.get? p.2.index).map
            (fun c => { base := c, relevance_score := p.2.relevance_score,
                        relevance_rank := p.1 })) := by
  induction resp generalizing r with
  | nil => rfl
  | cons cr rs ih =>
    rw [List.enumFrom_cons, List.filterMap_cons]
    cases h : pre.get? cr.index with
    | none => simp only [reconstruct_go, h, Option.map_none']; exact ih (r + 1)
    | some c => simp only [reconstruct_go, h, Option.map_some']; rw [ih (r + 1)]

theorem reconstruct_eq_go (resp : List CohereResult) (pre : List SimCard) :
    reconstruct_from_cohere resp pre = reconstruct_go pre 1 resp := by
  unfold reconstruct_from_cohere
  apply List.Sorted.insertionSort_eq
  exact List.Pairwise.imp (fun h => Nat.le_of_lt h) (reconstruct_go_pairwise pre resp 1)

theorem reconstruct_go_ranks (pre : List SimCard) (resp : List CohereResult) (r : Nat)
    (h : ∀ cr ∈ resp, cr.index < pre.length) :
    (reconstruct_go pre r resp).map (fun c => c.relevance_rank)
      = List.range' r resp.length := by
  induction resp generalizing r with
  | nil => rfl
  | cons cr rs ih =>
    have hidx : (pre.get? cr.index).isSome := by
      rw [List.get?_eq_getElem?]
      simp [h cr (List.mem_cons_self cr rs)]
    obtain ⟨card, hcard⟩ := Option.isSome_iff_exists.mp hidx
    simp only [reconstruct_go, hcard, List.map_cons, List.length_cons, List.range'_succ]
    rw [ih (r + 1) (fun y hy => h y (List.mem_cons_of_mem cr hy))]

/-- Claim C3, counterexample.  The claim says `relevance_rank` values
are exactly one up to the list length with no gaps even when some
provider indices are dropped; the rank counter of the code advances
over dropped results too, so with a first provider result whose index
is outside the source set, the single surviving card carries rank 2,
not 1. -/
theorem C3_counterexample :
    (reconstruct_from_cohere [⟨5, 9⟩, ⟨0, 8⟩] [⟨1, "1111111111111", 1, "A"⟩]).map
        (fun c => c.relevance_rank) = [2] ∧
    (reconstruct_from_cohere [⟨5, 9⟩, ⟨0, 8⟩] [⟨1, "1111111111111", 1, "A"⟩]).map
        (fun c => c.relevance_rank)
      ≠ List.range' 1 (reconstruct_from_cohere [⟨5, 9⟩, ⟨0, 8⟩]
          [⟨1, "1111111111111", 1, "A"⟩]).length := by
  constructor <;> decide

/-- Claim C3, amended: each surviving entry of the reconciled
relevance list is the source card of a provider result, carrying that
result's score and, as `relevance_rank`, the 1-based position of that
result in the provider result list — also in the presence of drops
(the list equals the rank-and-score-attaching filter of the
enumerated provider results); the ranks are strictly increasing, so
list order equals rank order; the ranks are exactly one up to the list
length whenever every provider-returned index resolves to a source
card (a dropped index ahead of a surviving result shifts that result
upward and leaves a gap, as the counterexample shows, while trailing
drops do not). -/
theorem C3_relevance_rank (resp : List CohereResult) (pre : List SimCard) :
    reconstruct_from_cohere resp pre
      = (List.enumFrom 1 resp).filterMap
          (fun p => (pre.get? p.2.index).map
            (fun c => { base := c, relevance_score := p.2.relevance_score,
                        relevance_rank := p.1 })) ∧
    List.Pairwise (fun a b => a.relevance_rank < b.relevance_rank)
      (reconstruct_from_cohere resp pre) ∧
    ((∀ cr ∈ resp, cr.index < pre.length) →
      (reconstruct_from_cohere resp pre).map (fun c => c.relevance_rank)
        = List.range' 1 resp.length) := by
  rw [reconstruct_eq_go]
  exact ⟨reconstruct_go_eq pre resp 1, reconstruct_go_pairwise pre resp 1,
    fun h => reconstruct_go_ranks pre resp 1 h⟩

/-- Claim C3, witness: with both provider indices inside the source
set, the reconciled ranks are exactly one and two. -/
theorem C3_witness :
    List.Pairwise (fun a b => a.relevance_rank < b.relevance_rank)
      (reconstruct_from_cohere [⟨1, 9⟩, ⟨0, 8⟩]
        [⟨1, "1111111111111", 1, "A"⟩, ⟨2, "2222222222222", 1, "B"⟩]) ∧
    (reconstruct_from_cohere [⟨1, 9⟩, ⟨0, 8⟩]
        [⟨1, "1111111111111", 1, "A"⟩, ⟨2, "2222222222222", 1, "B"⟩]).map
      (fun c => c.relevance_rank) = List.range' 1 ([⟨1, 9⟩, ⟨0, 8⟩] : List CohereResult).length :=
  ⟨(C3_relevance_rank [⟨1, 9⟩, ⟨0, 8⟩]
      [⟨1, "1111111111111", 1, "A"⟩, ⟨2, "2222222222222", 1, "B"⟩]).2.1,
    (C3_relevance_rank [⟨1, 9⟩, ⟨0, 8⟩]
      [⟨1, "1111111111111", 1, "A"⟩, ⟨2, "2222222222222", 1, "B"⟩]).2.2 (by decide)⟩

/-! ## Claim C8 -/

/-- Claim C8, counterexample.  On malformed standard output the bridge
returns the fixed string "Error: Invalid response format from script":
a bare status string, not a record carrying a succeeded flag, and not
the Unknown classification the claim describes (nor the script-defined
default status "myy_error"); no succeeded field exists anywhere in the
aggregate result type. -/
theorem C8_counterexample :
    check_anki_status ParsedStdout.malformed = "Error: Invalid response format from script" ∧
    check_anki_status ParsedStdout.malformed ≠ "Unknown" ∧
    check_anki_status ParsedStdout.malformed ≠ "myy_error" := by
  refine ⟨rfl, ?_, ?_⟩ <;> decide

/-- Claim C8, amended: malformed or empty standard output makes the
bridge return the fixed error-status string (the bridge yields only a
status string; there is no succeeded flag), the bridge never raises
(it is a total function into `String`), and a bridge outcome of any
kind changes nothing in the aggregate result except the `anki_status`
field and never aborts the search: two searches differing only in the
bridge stdout agree after overwriting `anki_status`, and a concrete
fully-populated search carries the error-status string in
`anki_status`. -/
theorem C8_bridge_degrades_only_status :
    check_anki_status ParsedStdout.malformed = "Error: Invalid response format from script" ∧
    (∀ (sq : ℚ → ℚ) (cfg : RuntimeConfig) (pv : ProviderOutcomes) (q : String)
       (p1 p2 : ParsedStdout),
       Option.map erase_anki_status
           (search_flashcards sq cfg { pv with anki_stdout := p1 } q)
         = Option.map erase_anki_status
           (search_flashcards sq cfg { pv with anki_stdout := p2 } q)) ∧
    Option.map (fun r => r.anki_status)
        (search_flashcards (fun x => x) ⟨[[1]], 1, [("1111111111111", "c")], none, "H"⟩
          ⟨Except.ok [1], Except.ok [⟨0, 1⟩], Except.ok "hello", ParsedStdout.malformed⟩ "q")
      = some "Error: Invalid response format from script" := by
  refine ⟨rfl, ?_, by decide⟩
  intro sq cfg pv q p1 p2
  obtain ⟨pe, pc, pd, pa⟩ := pv
  simp only [search_flashcards]
  split
  · rfl
  · split
    · rfl
    · split
      · rfl
      · split
        · rfl
        · rfl

/-! ## Claim C4 -/

/-- Claim C4, counterexample.  With the generation provider raising
(injected outcome is an error) while every other stage succeeds, the
search does not abort: it returns a populated aggregate result whose
generated-text field holds the degraded error value "Error: boom". -/
theorem C4_counterexample :
    (search_flashcards (fun x => x) ⟨[[1]], 1, [("1111111111111", "c")], none, "H"⟩
        ⟨Except.ok [1], Except.ok [⟨0, 1⟩], Except.error "boom", ParsedStdout.malformed⟩
        "q").isSome = true ∧
    Option.map (fun r => r.llm_response)
        (search_flashcards (fun x => x) ⟨[[1]], 1, [("1111111111111", "c")], none, "H"⟩
          ⟨Except.ok [1], Except.ok [⟨0, 1⟩], Except.error "boom", ParsedStdout.malformed⟩
          "q")
      = some "Error: boom" := by
  constructor <;> decide

/-- Claim C4, amended: a generation-provider failure does not abort the
search.  `chat_with_final_llm` absorbs the exception and returns the
string "Error: " followed by the cause; whether the search returns a
result is independent of the generation outcome, and whenever the
search returns a result under a failing generation provider, the
generated-text field of the aggregate holds that error string.
(Embedding, similarity, dataframe and rerank failures do abort, as the
`none` branches of `search_flashcards` record.) -/
theorem C4_generation_error_absorbed (sq : ℚ → ℚ) (cfg : RuntimeConfig)
    (pv : ProviderOutcomes) (q e : String)
    (hds : pv.deepseek_result = Except.error e) :
    (∀ d, (search_flashcards sq cfg { pv with deepseek_result := d } q).isSome
        = (search_flashcards sq cfg pv q).isSome) ∧
    (∀ r, search_flashcards sq cfg pv q = some r → r.llm_response = "Error: " ++ e) := by
  obtain ⟨pe, pc, pd, pa⟩ := pv
  simp only at hds
  subst hds
  constructor
  · intro d
    simp only [search_flashcards]
    split
    · rfl
    · split
      · rfl
      · split
        · rfl
        · split
          · rfl
          · rfl
  · intro r hr
    simp only [search_flashcards] at hr
    split at hr
    · exact absurd hr (by simp)
    · split at hr
      · exact absurd hr (by simp)
      · split at hr
        · exact absurd hr (by simp)
        · split at hr
          · exact absurd hr (by simp)
          · rw [← Option.some.inj hr]
            rfl

/-- Claim C4, witness: the amended theorem applied to a concrete
configuration and provider outcome with a failing generation call. -/
theorem C4_witness :
    (∀ d, (search_flashcards (fun x => x) ⟨[[1]], 1, [("1111111111111", "c")], none, "H"⟩
        { embed_result := Except.ok [1], cohere_result := Except.ok [⟨0, 1⟩],
          deepseek_result := d, anki_stdout := ParsedStdout.malformed } "q").isSome
      = (search_flashcards (fun x => x) ⟨[[1]], 1, [("1111111111111", "c")], none, "H"⟩
        ⟨Except.ok [1], Except.ok [⟨0, 1⟩], Except.error "boom", ParsedStdout.malformed⟩
        "q").isSome) ∧
    (∀ r, search_flashcards (fun x => x) ⟨[[1]], 1, [("1111111111111", "c")], none, "H"⟩
        ⟨Except.ok [1], Except.ok [⟨0, 1⟩], Except.error "boom", ParsedStdout.malformed⟩
        "q" = some r → r.llm_response = "Error: " ++ "boom") :=
  C4_generation_error_absorbed (fun x => x) ⟨[[1]], 1, [("1111111111111", "c")], none, "H"⟩
    ⟨Except.ok [1], Except.ok [⟨0, 1⟩], Except.error "boom", ParsedStdout.malformed⟩
    "q" "boom" rfl

/-! ## Claim C7 -/

/-- Claim C7: under the stated precondition that the requested count is
at most the number of rows (of a non-empty, rectangular matrix), the
similarity search fails with the dimension-mismatch signal if and only
if the query dimensionality differs from the matrix column count, and
under matching dimensionality it returns a result without error. -/
theorem C7_dim_mismatch_iff (sq : ℚ → ℚ) (q : List ℚ) (m : List (List ℚ)) (n : Nat)
    (hm : m ≠ []) (hrect : ∀ row ∈ m, row.length = (m.headD []).length)
    (hn : n ≤ m.length) :
    ((get_top_n_similarities_and_indices sq q m n = Except.error dim_mismatch_message)
      ↔ q.length ≠ (m.headD []).length) ∧
    (q.length = (m.headD []).length →
      ∃ l, get_top_n_similarities_and_indices sq q m n = Except.ok l) := by
  unfold get_top_n_similarities_and_indices
  by_cases hq : q.length = (m.headD []).length
  · rw [if_neg (not_not_intro hq), if_neg (Nat.not_lt.mpr hn)]
    refine ⟨⟨fun h => absurd h (by simp), fun h => absurd hq h⟩, fun _ => ⟨_, rfl⟩⟩
  · rw [if_pos hq]
    exact ⟨⟨fun _ => hq, fun _ => rfl⟩, fun h => absurd h hq⟩

/-- Claim C7, witness: the theorem applied to a concrete rectangular
two-row matrix; with a matching two-dimensional query no error is
raised, and the error equation is equivalent to the (false) dimension
mismatch. -/
theorem C7_witness :
    ((get_top_n_similarities_and_indices (fun x => x) [1, 0] [[1, 0], [0, 1]] 1
        = Except.error dim_mismatch_message)
      ↔ ([1, 0] : List ℚ).length ≠ (([[1, 0], [0, 1]] : List (List ℚ)).headD []).length) ∧
    (([1, 0] : List ℚ).length = (([[1, 0], [0, 1]] : List (List ℚ)).headD []).length →
      ∃ l, get_top_n_similarities_and_indices (fun x => x) [1, 0] [[1, 0], [0, 1]] 1
        = Except.ok l) :=
  C7_dim_mismatch_iff (fun x => x) [1, 0] [[1, 0], [0, 1]] 1 (by decide) (by decide)
    (by decide)

/-! ## Claim C1 -/

instance exceptDecEq {α β : Type} [DecidableEq α] [DecidableEq β] :
    DecidableEq (Except α β) := fun a b =>
  match a, b with
  | Except.ok x, Except.ok y =>
    if h : x = y then isTrue (by rw [h]) else isFalse (by simp [h])
  | Except.error x, Except.error y =>
    if h : x = y then isTrue (by rw [h]) else isFalse (by simp [h])
  | Except.ok _, Except.error _ => isFalse (by simp)
  | Except.error _, Except.ok _ => isFalse (by simp)

theorem argsortAsc_nodup (s : List ℚ) : (argsortAsc s).Nodup :=
  (List.perm_insertionSort (scoreLe s) (List.range s.length)).symm.nodup
    (List.nodup_range s.length)

theorem argpartitionTop_nodup (s : List ℚ) (n : Nat) : (argpartitionTop s n).Nodup := by
  unfold argpartitionTop
  split
  · exact argsortAsc_nodup s
  · exact (List.drop_sublist _ _).nodup (argsortAsc_nodup s)

theorem similarity_scores_length (sq : ℚ → ℚ) (q : List ℚ) (m : List (List ℚ)) :
    (similarity_scores sq q m).length = m.length := by
  simp [similarity_scores]

theorem argsortAsc_length (s : List ℚ) : (argsortAsc s).length = s.length := by
  unfold argsortAsc
  rw [List.length_insertionSort, List.length_range]

/-- The executable representative satisfies the documented argsort
contract (it is a permutation of the range with non-decreasing
values). -/
theorem argsortAsc_satisfies : ArgsortSpec argsortAsc := by
  intro s
  refine ⟨List.perm_insertionSort (scoreLe s) (List.range s.length), ?_⟩
  refine List.Pairwise.imp ?_ (List.sorted_insertionSort (scoreLe s) (List.range s.length))
  intro i j hij
  rcases hij with h | ⟨h, _⟩
  · exact le_of_lt h
  · exact le_of_eq h

/-- The executable representative satisfies the documented
argpartition contract: the selected tail of the ascending argsort is
`n` distinct in-range indices dominating every index left out. -/
theorem argpartitionTop_satisfies : ArgpartitionSpec (fun s n => argpartitionTop s n) := by
  intro s n h1 h2
  show (argpartitionTop s n).length = n ∧ (argpartitionTop s n).Nodup ∧
    (∀ i ∈ argpartitionTop s n, i < s.length) ∧
    (∀ j, j < s.length → j ∉ argpartitionTop s n →
      ∀ i ∈ argpartitionTop s n, s.getD j 0 ≤ s.getD i 0)
  have hA : argpartitionTop s n = (argsortAsc s).drop (s.length - n) := by
    unfold argpartitionTop
    rw [if_neg (by omega : ¬ n = 0)]
  have hAperm : (argsortAsc s).Perm (List.range s.length) :=
    List.perm_insertionSort (scoreLe s) (List.range s.length)
  have hmemA : ∀ i, i ∈ argsortAsc s ↔ i < s.length := by
    intro i
    rw [hAperm.mem_iff]
    exact List.mem_range
  refine ⟨?_, ?_, ?_, ?_⟩
  · rw [hA, List.length_drop, argsortAsc_length]
    omega
  · rw [hA]
    exact (List.drop_sublist _ _).nodup (argsortAsc_nodup s)
  · intro i hi
    rw [hA] at hi
    exact (hmemA i).mp ((List.drop_sublist _ _).subset hi)
  · intro j hj hjnot i hi
    rw [hA] at hjnot hi
    have hjA : j ∈ argsortAsc s := (hmemA j).mpr hj
    have hsplit := List.take_append_drop (s.length - n) (argsortAsc s)
    have hjtake : j ∈ (argsortAsc s).take (s.length - n) := by
      rcases List.mem_append.mp (hsplit ▸ hjA) with h | h
      · exact h
      · exact absurd h hjnot
    have hpw : List.Pairwise (scoreLe s) (argsortAsc s) :=
      List.sorted_insertionSort (scoreLe s) (List.range s.length)
    rw [← hsplit] at hpw
    have := (List.pairwise_append.mp hpw).2.2 j hjtake i hi
    rcases this with h | ⟨h, _⟩
    · exact le_of_lt h
    · exact le_of_eq h

/-- Claim C1, counterexample.  Two identical rows tie at cosine
similarity one; the code returns them in descending original-index
order (index 1 first), because the ascending argsort is reversed, so
the claimed ascending tiebreak fails. -/
theorem C1_counterexample :
    get_top_n_similarities_and_indices (fun x => x) [1, 0] [[1, 0], [1, 0]] 2
      = Except.ok [(1, 1), (0, 1)] ∧
    ¬ List.Pairwise (fun a b : Nat × ℚ => b.2 < a.2 ∨ (a.2 = b.2 ∧ a.1 < b.1))
      [((1 : Nat), (1 : ℚ)), (0, 1)] := by
  constructor <;> with_unfolding_all decide

/-- Claim C1, amended: for every embedding matrix (non-empty and
rectangular), every query of matching dimensionality and every n
between one and the number of rows, the search returns at most n
pairs of distinct in-range indices with their scores, sorted by
non-increasing cosine similarity.  No tie order between equal
similarities is guaranteed (the default numpy argsort is not stable),
and the claimed ascending-index tie order fails where numpy does fix
the order, as the counterexample shows.  The theorem quantifies over
every argpartition and argsort behaviour satisfying the documented
numpy contracts, so it does not depend on the tie order of the
executable representative. -/
theorem C1_topn_sorted (apart : List ℚ → Nat → List Nat) (asort : List ℚ → List Nat)
    (hap : ArgpartitionSpec apart) (has : ArgsortSpec asort)
    (sq : ℚ → ℚ) (q : List ℚ) (m : List (List ℚ)) (n : Nat)
    (hm : m ≠ []) (hrect : ∀ row ∈ m, row.length = q.length)
    (h1 : 1 ≤ n) (h2 : n ≤ m.length) :
    ∃ l, get_top_n_with apart asort sq q m n = Except.ok l ∧
      l.length ≤ n ∧
      List.Pairwise (fun a b : Nat × ℚ => b.2 ≤ a.2) l ∧
      (l.map Prod.fst).Nodup ∧
      (∀ p ∈ l, p.1 < m.length) := by
  have hcols : (m.headD []).length = q.length := by
    cases m with
    | nil => exact absurd rfl hm
    | cons r rs => exact hrect r (List.mem_cons_self r rs)
  have hslen : (similarity_scores sq q m).length = m.length := similarity_scores_length sq q m
  obtain ⟨hplen, hpnd, hpbound, _⟩ :=
    hap (similarity_scores sq q m) n h1 (by rw [hslen]; exact h2)
  set s := similarity_scores sq q m with hs
  set part := apart s n with hpart
  set t := part.map (fun i => s.getD i 0) with ht
  obtain ⟨hAperm, hApair⟩ := has t
  have htlen : t.length = n := by rw [ht, List.length_map, hplen]
  have hAmem : ∀ k ∈ asort t, k < part.length := by
    intro k hk
    have := List.mem_range.mp (hAperm.mem_iff.mp hk)
    rw [htlen] at this
    omega
  have hgett : ∀ k, k < part.length → t.getD k 0 = s.getD (part.getD k 0) 0 := by
    intro k hk
    rw [ht, List.getD_eq_getElem _ _ (by rw [List.length_map]; exact hk),
      List.getElem_map, List.getD_eq_getElem _ _ hk]
  unfold get_top_n_with
  rw [if_neg (not_not_intro hcols.symm), if_neg (Nat.not_lt.mpr h2)]
  refine ⟨_, rfl, ?_, ?_, ?_, ?_⟩
  · rw [List.length_map]
    unfold topNIndices_with
    rw [List.length_reverse, List.length_map, hAperm.length_eq, List.length_range]
    exact le_of_eq htlen
  · rw [List.pairwise_map]
    unfold topNIndices_with
    rw [← hpart, List.pairwise_reverse, List.pairwise_map]
    refine List.Pairwise.imp_of_mem ?_ hApair
    intro k1 k2 hk1 hk2 hle
    rw [← hgett k1 (hAmem k1 hk1), ← hgett k2 (hAmem k2 hk2)]
    exact hle
  · have hmapmap : ((topNIndices_with apart asort s n).map
        (fun i => (i, s.getD i 0))).map Prod.fst = topNIndices_with apart asort s n := by
      rw [List.map_map]
      exact List.map_id _
    rw [hmapmap]
    unfold topNIndices_with
    rw [← hpart, List.nodup_reverse]
    refine List.Nodup.map_on ?_ (hAperm.symm.nodup (List.nodup_range t.length))
    intro k1 hk1 k2 hk2 he
    have hk1l := hAmem k1 hk1
    have hk2l := hAmem k2 hk2
    rw [List.getD_eq_getElem _ _ hk1l, List.getD_eq_getElem _ _ hk2l] at he
    exact (List.Nodup.getElem_inj_iff hpnd).mp he
  · intro p hp
    obtain ⟨i, hi, hpi⟩ := List.mem_map.mp hp
    rw [← hpi]
    unfold topNIndices_with at hi
    rw [← hpart, List.mem_reverse] at hi
    obtain ⟨k, hk, hki⟩ := List.mem_map.mp hi
    have hkl := hAmem k hk
    have : part.getD k 0 ∈ part := by
      rw [List.getD_eq_getElem _ _ hkl]
      exact List.getElem_mem hkl
    have hlt := hpbound _ this
    rw [hki] at hlt
    rw [← hslen]
    exact hlt

/-- Claim C1, witness: the amended theorem applied to the executable
contract-satisfying representatives and a concrete three-row
rectangular matrix with a matching query and n equal to two. -/
theorem C1_witness :
    ∃ l, get_top_n_with (fun s n => argpartitionTop s n) argsortAsc
        (fun x => x) [1, 0] [[1, 0], [0, 1], [1, 1]] 2 = Except.ok l ∧
      l.length ≤ 2 ∧
      List.Pairwise (fun a b : Nat × ℚ => b.2 ≤ a.2) l ∧
      (l.map Prod.fst).Nodup ∧
      (∀ p ∈ l, p.1 < ([[1, 0], [0, 1], [1, 1]] : List (List ℚ)).length) :=
  C1_topn_sorted (fun s n => argpartitionTop s n) argsortAsc
    argpartitionTop_satisfies argsortAsc_satisfies
    (fun x => x) [1, 0] [[1, 0], [0, 1], [1, 1]] 2 (by decide) (by decide)
    (by decide) (by decide)

/-! ## Claim C10 -/

/-- A user-controlled block followed by a template that starts with a
newline: the scan of the block is isolated by the newline and the
template contributes nothing when it contains no opening bracket. -/
theorem scanNids_user_then_template (u : List Char) (t : String) (l : List Char)
    (hu : scanNids u = []) (t2 : List Char) (h1 : t.data = '\n' :: t2)
    (h2 : ∀ ch ∈ t2, ch ≠ '[') :
    scanNids (u ++ (t.data ++ l)) = scanNids l := by
  rw [h1, List.cons_append, scanNids_append_newline, hu, List.nil_append,
    scanNids_skip t2 l h2]

theorem scanNids_pool_lines : ∀ (cards : List RelCard),
    (∀ c ∈ cards, c.base.nid.data.length = 13 ∧ c.base.nid.data.all Char.isDigit = true) →
    (∀ c ∈ cards, extract_nid c.base.content = []) →
    scanNids (flashcard_pool_lines cards).data = cards.map (fun c => c.base.nid) := by
  intro cards
  induction cards with
  | nil => intro _ _; rfl
  | cons c cs ih =>
    intro hn hc
    obtain ⟨h13, hdig⟩ := hn c (List.mem_cons_self c cs)
    have hcontent : scanNids c.base.content.data = [] := hc c (List.mem_cons_self c cs)
    show scanNids ((("- [nid:" ++ c.base.nid ++ "] " ++ c.base.content ++ "\n")
        ++ flashcard_pool_lines cs).data) = _
    simp only [sdata_append, List.append_assoc]
    show scanNids (['-', ' '] ++ ('[' :: 'n' :: 'i' :: 'd' :: ':' ::
        (c.base.nid.data ++ (']' :: ' ' :: (c.base.content.data ++
          ('\n' :: (flashcard_pool_lines cs).data)))))) = _
    rw [scanNids_skip ['-', ' '] _ (by decide)]
    have htok : tryNidToken ('[' :: 'n' :: 'i' :: 'd' :: ':' ::
        (c.base.nid.data ++ ']' :: (' ' :: (c.base.content.data ++
          ('\n' :: (flashcard_pool_lines cs).data))))) = some (String.mk c.base.nid.data) :=
      tryNidToken_token c.base.nid.data _ h13 hdig
    rw [scanNids, htok, smk_data]
    show c.base.nid :: scanNids (['n', 'i', 'd', ':'] ++ (c.base.nid.data ++ (']' :: ' ' ::
        (c.base.content.data ++ ('\n' :: (flashcard_pool_lines cs).data))))) = _
    rw [scanNids_skip ['n', 'i', 'd', ':'] _ (by decide)]
    rw [scanNids_skip c.base.nid.data _
      (fun ch hch => digit_ne_lbrack (List.all_eq_true.mp hdig ch hch))]
    show c.base.nid :: scanNids ([']', ' '] ++ (c.base.content.data ++
        ('\n' :: (flashcard_pool_lines cs).data))) = _
    rw [scanNids_skip [']', ' '] _ (by decide)]
    rw [scanNids_append_newline, hcontent, List.nil_append]
    rw [ih (fun x hx => hn x (List.mem_cons_of_mem c hx))
      (fun x hx => hc x (List.mem_cons_of_mem c hx))]
    rfl

/-- Claim C10: round-trip of prompt assembly and identifier
extraction.  For every header, query and card list in which every card
identifier is exactly 13 digits and neither the header, the query nor
any card content contains a bracketed identifier token, applying the
extractor to the assembled prompt returns exactly the card identifiers
in card-list order. -/
theorem C10_prompt_roundtrip (header query_text : String) (cards : List RelCard)
    (hh : extract_nid header = []) (hq : extract_nid query_text = [])
    (hc : ∀ c ∈ cards, extract_nid c.base.content = [])
    (hn : ∀ c ∈ cards, c.base.nid.data.length = 13 ∧
      c.base.nid.data.all Char.isDigit = true) :
    extract_nid (format_flashcard_results_for_llm header query_text cards)
      = cards.map (fun c => c.base.nid) := by
  have hh2 : scanNids header.data = [] := hh
  have hq2 : scanNids query_text.data = [] := hq
  show scanNids (format_flashcard_results_for_llm header query_text cards).data = _
  unfold format_flashcard_results_for_llm
  simp only [sdata_append, List.append_assoc]
  rw [scanNids_template "# Prompt\n" _ (by decide)]
  rw [scanNids_user_then_template header.data "\n\n" _ hh2 ['\n'] rfl (by decide)]
  rw [scanNids_template "## Query\n" _ (by decide)]
  rw [scanNids_user_then_template query_text.data "\n\n" _ hq2 ['\n'] rfl (by decide)]
  rw [scanNids_template "## Flashcard Pool\n" _ (by decide)]
  exact scanNids_pool_lines cards hn hc

/-- Claim C10, witness: the round-trip applied to a concrete header,
query and two-card list with 13-digit identifiers. -/
theorem C10_witness :
    extract_nid (format_flashcard_results_for_llm "You rank cards." "what is pneumonia"
        [⟨⟨1, "1111111111111", 1, "A"⟩, 9, 1⟩, ⟨⟨2, "2222222222222", 1, "B"⟩, 8, 2⟩])
      = ["1111111111111", "2222222222222"] :=
  C10_prompt_roundtrip "You rank cards." "what is pneumonia"
    [⟨⟨1, "1111111111111", 1, "A"⟩, 9, 1⟩, ⟨⟨2, "2222222222222", 1, "B"⟩, 8, 2⟩]
    (by decide) (by decide) (by decide) (by decide)
